import Mathlib

/-!
Verification of the crawl-orchestration and normalization pipeline of an
Airbnb scraping system, shallowly embedded from its Go source.

Conventions of the embedding:
* Go strings are modelled as Lean `String` / `List Char`; the inputs under
  consideration are ASCII, so byte indices coincide with character indices.
* Go `float64` values produced by decimal parsing and a single division are
  modelled as exact rationals (`ℚ`); on every value the code manipulates
  (1-2 decimal digits, comparison with the representable bound 5) the
  rounded double agrees with the exact rational.
* The browser/rendering layer (chromedp) is modelled as oracles: a page
  fetch is a function `String → Except String (List RawListing × String)`
  and a description fetch is `String → Except String String`; an `error`
  result models a failed navigation / exhausted retries.
-/

/-- Digit character class, Go regexp `\d` = `[0-9]`. -/
def isDig (c : Char) : Bool := 48 ≤ c.toNat && c.toNat ≤ 57

/-- Whitespace class of Go regexp `\s` = `[\t\n\f\r ]`. -/
def isWS (c : Char) : Bool :=
  c = ' ' || c = '\t' || c = '\n' || c = '\x0c' || c = '\r'

/-- Characters trimmed by Go `strings.TrimSpace` (ASCII fragment). -/
def isSpaceGo (c : Char) : Bool :=
  c = ' ' || c = '\t' || c = '\n' || c = '\x0b' || c = '\x0c' || c = '\r'

/-- Decimal value of a digit string, as `strconv` reads the integer part. -/
def natOfDigitsAux (acc : Nat) : List Char → Nat
  | [] => acc
  | c :: cs => natOfDigitsAux (acc * 10 + (c.toNat - 48)) cs

def natOfDigits (ds : List Char) : Nat := natOfDigitsAux 0 ds

/-- Exact value of `strconv.ParseFloat` on `ip ++ "." ++ fp` (digit lists);
an empty `fp` is a bare integer literal. -/
def ratOfParts (ip fp : List Char) : ℚ :=
  (natOfDigits ip : ℚ) + (natOfDigits fp : ℚ) / ((10 : ℚ) ^ fp.length)

/-- Capture group of `\$?([\d,]+(?:\.\d{2})?)` once a match position with a
leading digit is found (commas have already been removed from the input, so
`[\d,]` only ever matches digits): the greedy digit run, then the optional
`.dd` tail. Returns (integer digits, fraction digits). -/
def priceCapture (cs : List Char) : List Char × List Char :=
  let ds := cs.takeWhile isDig
  let rest := cs.dropWhile isDig
  match rest with
  | '.' :: d1 :: d2 :: _ =>
    if isDig d1 && isDig d2 then (ds, [d1, d2]) else (ds, [])
  | _ => (ds, [])

/-- Leftmost match of Go regexp `\$?([\d,]+(?:\.\d{2})?)` on a comma-free
string: a match starts at the first position holding a digit, or a `$`
immediately followed by a digit. -/
def findPriceMatch : List Char → Option (List Char × List Char)
  | [] => none
  | c :: cs =>
    if isDig c then some (priceCapture (c :: cs))
    else if c = '$' then
      match cs with
      | [] => none
      | d :: _ => if isDig d then some (priceCapture cs) else findPriceMatch cs
    else findPriceMatch cs

/-- Attempt to match Go regexp `for\s+(\d+)\s+night` at the head of the
string; the character classes are pairwise disjoint, so greedy maximal-munch
matching is exact. Returns the captured night count. -/
def matchNightsAt (cs : List Char) : Option Nat :=
  match cs with
  | 'f' :: 'o' :: 'r' :: rest =>
    let sp := rest.takeWhile isWS
    let r1 := rest.dropWhile isWS
    if sp.isEmpty then none
    else
      let ds := r1.takeWhile isDig
      let r2 := r1.dropWhile isDig
      if ds.isEmpty then none
      else
        let sp2 := r2.takeWhile isWS
        let r3 := r2.dropWhile isWS
        if sp2.isEmpty then none
        else
          match r3 with
          | 'n' :: 'i' :: 'g' :: 'h' :: 't' :: _ => some (natOfDigits ds)
          | _ => none
  | _ => none

/-- Leftmost match of `for\s+(\d+)\s+night`. -/
def findNights : List Char → Option Nat
  | [] => none
  | c :: cs =>
    match matchNightsAt (c :: cs) with
    | some n => some n
    | none => findNights cs

/-- `parsePrice` from `services/insights.go`: empty input is 0; commas are
removed; the first `\$?([\d,]+(?:\.\d{2})?)` match is parsed as a float;
if `for\s+(\d+)\s+night` also matches with a positive night count, the
value is divided by it; no match yields 0. -/
def parsePrice (raw : String) : ℚ :=
  if raw = "" then 0
  else
    let cleaned := raw.data.filter (fun c => c ≠ ',')
    match findPriceMatch cleaned with
    | none => 0
    | some (ip, fp) =>
      let val := ratOfParts ip fp
      match findNights cleaned with
      | some n => if 0 < n then val / (n : ℚ) else val
      | none => val

/-- Attempt to match `([45]\.\d{1,2}|\d\.\d{1,2})` at the head: a digit, a
dot, and one or two further digits (greedy). Both alternatives capture the
same text at a given position, so the alternation collapses. -/
def ratingCaptureAt (cs : List Char) : Option (Char × List Char) :=
  match cs with
  | d :: '.' :: d1 :: rest =>
    if isDig d && isDig d1 then
      match rest with
      | d2 :: _ => if isDig d2 then some (d, [d1, d2]) else some (d, [d1])
      | [] => some (d, [d1])
    else none
  | _ => none

/-- Leftmost match of the rating regexp `([45]\.\d{1,2}|\d\.\d{1,2})`. -/
def findRating : List Char → Option (Char × List Char)
  | [] => none
  | c :: cs =>
    match ratingCaptureAt (c :: cs) with
    | some r => some r
    | none => findRating cs

/-- `parseRating` from `services/insights.go`: value of the first match of
the rating regexp, with any value above 5 discarded to 0. -/
def parseRating (raw : String) : ℚ :=
  if raw = "" then 0
  else
    match findRating raw.data with
    | none => 0
    | some (d, fp) =>
      let val := ratOfParts [d] fp
      if 5 < val then 0 else val

/-- `strings.TrimSpace` on the character list. -/
def trimChars (cs : List Char) : List Char :=
  ((cs.dropWhile isSpaceGo).reverse.dropWhile isSpaceGo).reverse

/-- Largest index `i < n` at which `pat` occurs in `s`, scanning downward. -/
def lastIdxBelow (pat s : List Char) : Nat → Option Nat
  | 0 => none
  | n + 1 =>
    if List.isPrefixOf pat (s.drop n) then some n else lastIdxBelow pat s n

/-- `strings.LastIndex`: index of the last occurrence of `pat` in `s`
(`none` for Go's -1). -/
def lastIndex (pat s : List Char) : Option Nat :=
  lastIdxBelow pat s (s.length + 1)

/-- The pattern `" in "` searched for by `cleanLocation`. -/
def inPat : List Char := [' ', 'i', 'n', ' ']

/-- `cleanLocation` from `services/insights.go`: trim, then if the last
occurrence of `" in "` starts at an index below 30, keep only what follows
that occurrence. -/
def cleanLocation (loc : String) : String :=
  let l := trimChars loc.data
  match lastIndex inPat l with
  | some i => if i < 30 then String.mk (l.drop (i + 4)) else String.mk l
  | none => String.mk l

/-- Evaluation lemma: `parsePrice` when the price regexp matched. -/
theorem parsePrice_chars (raw : String) (ip fp : List Char) (h : ¬ raw = "")
    (hm : findPriceMatch (raw.data.filter (fun c => c ≠ ',')) = some (ip, fp)) :
    (findNights (raw.data.filter (fun c => c ≠ ',')) = none →
      parsePrice raw = ratOfParts ip fp) ∧
    (∀ n, findNights (raw.data.filter (fun c => c ≠ ',')) = some n →
      parsePrice raw = if 0 < n then ratOfParts ip fp / (n : ℚ) else ratOfParts ip fp) := by
  constructor
  · intro hn
    simp only [parsePrice, if_neg h, hm, hn]
  · intro n hn
    simp only [parsePrice, if_neg h, hm, hn]

/-- Evaluation lemma: `parsePrice` is 0 when the price regexp does not match
or the input is empty. -/
theorem parsePrice_none (raw : String)
    (hm : raw = "" ∨ findPriceMatch (raw.data.filter (fun c => c ≠ ',')) = none) :
    parsePrice raw = 0 := by
  rcases hm with h | h
  · simp only [parsePrice, if_pos h]
  · by_cases hr : raw = ""
    · simp only [parsePrice, if_pos hr]
    · simp only [parsePrice, if_neg hr, h]

/-- Evaluation lemma: `parseRating` through the rating regexp result. -/
theorem parseRating_chars (raw : String) :
    (findRating raw.data = none → parseRating raw = 0) ∧
    (∀ d fp, findRating raw.data = some (d, fp) →
      parseRating raw = if 5 < ratOfParts [d] fp then 0 else ratOfParts [d] fp) := by
  constructor
  · intro hn
    by_cases hr : raw = ""
    · simp only [parseRating, if_pos hr]
    · simp only [parseRating, if_neg hr, hn]
  · intro d fp hm
    by_cases hr : raw = ""
    · subst hr
      have hne : findRating ("" : String).data = none := rfl
      rw [hne] at hm
      cases hm
    · simp only [parseRating, if_neg hr, hm]

-- basic sanity checks of the parsing embedding
example : parsePrice "$71 for 2 nights" = 71 / 2 := by
  have h := (parsePrice_chars "$71 for 2 nights" ['7', '1'] []
    (by decide) (by decide)).2 2 (by decide)
  rw [h]
  simp [ratOfParts, show natOfDigits ['7', '1'] = 71 from by decide,
    show natOfDigits [] = 0 from by decide]

example : parsePrice "$50" = 50 := by
  have h := (parsePrice_chars "$50" ['5', '0'] [] (by decide) (by decide)).1 (by decide)
  rw [h]
  simp [ratOfParts, show natOfDigits ['5', '0'] = 50 from by decide,
    show natOfDigits [] = 0 from by decide]

example : parsePrice "" = 0 := parsePrice_none "" (Or.inl rfl)

example : parsePrice "free stay" = 0 := parsePrice_none "free stay" (Or.inr (by decide))

example : parseRating "4.82 out of 5 average rating" = 482 / 100 := by
  have h := (parseRating_chars "4.82 out of 5 average rating").2 '4' ['8', '2'] (by decide)
  rw [h]
  rw [ratOfParts, show natOfDigits ['4'] = 4 from by decide,
    show natOfDigits ['8', '2'] = 82 from by decide]
  norm_num

example : parseRating "6.00" = 0 := by
  have h := (parseRating_chars "6.00").2 '6' ['0', '0'] (by decide)
  rw [h]
  rw [ratOfParts, show natOfDigits ['6'] = 6 from by decide,
    show natOfDigits ['0', '0'] = 0 from by decide]
  norm_num

example : parseRating "" = 0 := (parseRating_chars "").1 (by decide)

example : cleanLocation "Condo in Bangkok" = "Bangkok" := by decide
example : cleanLocation "  Tokyo  " = "Tokyo" := by decide

/-- `models.RawListing`: raw scraped record. `ScrapedAt` is modelled as an
abstract tick (`Nat`). -/
structure RawListing where
  platform : String
  title : String
  rawPrice : String
  location : String
  rawRating : String
  url : String
  description : String
  scrapedAt : Nat
deriving DecidableEq

/-- A discovered homepage section (`LocationSection` in `scraper.go`). -/
structure LocationSection where
  name : String
  url : String
deriving DecidableEq

/-- `utils.URLTracker`: mutex-guarded set of seen keys, modelled as the list
of inserted keys (insertion happens only when absent, so it never holds
duplicates). -/
structure URLTracker where
  seen : List String
deriving DecidableEq

/-- `URLTracker.Add`: true iff the key was absent; records it. Returns the
Go boolean together with the updated tracker state. -/
def URLTracker.Add (t : URLTracker) (url : String) : Bool × URLTracker :=
  if url ∈ t.seen then (false, t) else (true, ⟨url :: t.seen⟩)

/-- `URLTracker.Count`: number of tracked keys. -/
def URLTracker.Count (t : URLTracker) : Nat := t.seen.length

/-- The booleans returned by a sequence of `Add` calls. -/
def runAdds (t : URLTracker) : List String → List Bool
  | [] => []
  | k :: ks => (t.Add k).1 :: runAdds (t.Add k).2 ks

/-- Tracker state after a sequence of `Add` calls. -/
def foldAdds (t : URLTracker) : List String → URLTracker
  | [] => t
  | k :: ks => foldAdds (t.Add k).2 ks

/-- ASCII case folding used to model `strings.EqualFold` (the strings the
scraper compares are ASCII). -/
def toLowerAscii (c : Char) : Char :=
  if 65 ≤ c.toNat && c.toNat ≤ 90 then Char.ofNat (c.toNat + 32) else c

/-- `strings.EqualFold` on character lists (ASCII fragment). -/
def eqFold (a b : List Char) : Bool :=
  decide (a.map toLowerAscii = b.map toLowerAscii)

/-- `enrichDetail` from `scraper.go`: the page fetch plus description
extraction is the oracle `fd`; an `error` result models a failed
navigation/evaluation (swallowed after logging). The candidate is assigned
only when non-empty and not case-insensitively equal, after trimming, to
the title. -/
def enrichDetail (fd : String → Except String String) (l : RawListing) : RawListing :=
  if l.url = "" then l
  else
    match fd l.url with
    | Except.error _ => l
    | Except.ok desc =>
      if desc ≠ "" ∧ eqFold (trimChars desc.data) (trimChars l.title.data) = false then
        { l with description := desc }
      else l

/-- Per-run crawl state: the shared seen-URL set (`AirbnbScraper.seenURLs`)
and the records collected for the current section. -/
structure CrawlState where
  seen : List String
  collected : List RawListing
deriving DecidableEq

/-- One candidate record of the inner loop of `scrapeSection` (lines
654-667), below the quota check: a candidate whose url is already seen is
dropped; otherwise its url is recorded, the record is optionally enriched
(empty description, non-empty url), and it is appended. -/
def stepRecord (fd : String → Except String String) (st : CrawlState) (l : RawListing) :
    CrawlState :=
  if l.url ∈ st.seen then st
  else
    { seen := l.url :: st.seen,
      collected := st.collected ++
        [if l.description = "" ∧ l.url ≠ "" then enrichDetail fd l else l] }

/-- The inner candidate loop of `scrapeSection` (lines 650-668): stop when
the quota is reached, else process each candidate with `stepRecord`. Also
returns how many candidate records were examined. -/
def filterPage (quota : Nat) (fd : String → Except String String) :
    CrawlState → List RawListing → CrawlState × Nat
  | st, [] => (st, 0)
  | st, l :: rest =>
    if quota ≤ st.collected.length then (st, 0)
    else
      let r := filterPage quota fd (stepRecord fd st l) rest
      (r.1, r.2 + 1)

/-- The pagination loop of `scrapeSection` (lines 636-676). `fetch` models
`scrapePage` after its retry wrapper: `ok (listings, nextURL)` for a loaded
page, `error` for exhausted retries. `fuel` bounds the number of loop
iterations (the Go loop has no intrinsic bound). Returns the final state,
the number of page fetches performed, and the number of candidate records
examined. -/
def scrapeSectionLoop (quota : Nat)
    (fetch : String → Except String (List RawListing × String))
    (fd : String → Except String String) :
    Nat → CrawlState → String → CrawlState × Nat × Nat
  | 0, st, _ => (st, 0, 0)
  | fuel + 1, st, url =>
    if st.collected.length < quota then
      match fetch url with
      | Except.error _ => (st, 1, 0)
      | Except.ok (listings, nextURL) =>
        if listings = [] then (st, 1, 0)
        else
          let r1 := filterPage quota fd st listings
          if quota ≤ r1.1.collected.length ∨ nextURL = "" then (r1.1, 1, r1.2)
          else
            let r2 := scrapeSectionLoop quota fetch fd fuel r1.1 nextURL
            (r2.1, r2.2.1 + 1, r1.2 + r2.2.2)
    else (st, 0, 0)

/-- `scrapeSection`: starts from an empty collected list and the shared
seen set, and — as in the source — always returns a `nil` error
(`return collected, nil`; page errors only break the loop). -/
def scrapeSection (quota : Nat)
    (fetch : String → Except String (List RawListing × String))
    (fd : String → Except String String)
    (fuel : Nat) (seen : List String) (seedURL : String) :
    (CrawlState × Nat × Nat) × Option String :=
  (scrapeSectionLoop quota fetch fd fuel { seen := seen, collected := [] } seedURL, none)

/-- The section loop of `Scrape` (lines 509-520): sections processed in
order, sharing one seen-URL set; a section's listings are appended to the
accumulator. `fetch` additionally receives the section name (as
`scrapePage` does). -/
def scrapeAll (quota : Nat)
    (fetch : String → String → Except String (List RawListing × String))
    (fd : String → Except String String) (fuel : Nat) :
    List LocationSection → List String → List RawListing → List String × List RawListing
  | [], seen, acc => (seen, acc)
  | sec :: rest, seen, acc =>
    let r := scrapeSection quota (fetch sec.name) fd fuel seen sec.url
    scrapeAll quota fetch fd fuel rest r.1.1.seen (acc ++ r.1.1.collected)

/-- `fallbackSections` from `scraper.go` (lines 612-626): the static,
hardcoded list of seed sections. -/
def fallbackSections : List LocationSection :=
  [⟨"Bangkok", "https://www.airbnb.com/s/Bangkok--Thailand/homes"⟩,
   ⟨"Kuala Lumpur", "https://www.airbnb.com/s/Kuala-Lumpur--Malaysia/homes"⟩,
   ⟨"Tokyo", "https://www.airbnb.com/s/Tokyo--Japan/homes"⟩,
   ⟨"Bali", "https://www.airbnb.com/s/Bali--Indonesia/homes"⟩,
   ⟨"Seoul", "https://www.airbnb.com/s/Seoul--South-Korea/homes"⟩,
   ⟨"Singapore", "https://www.airbnb.com/s/Singapore/homes"⟩,
   ⟨"Paris", "https://www.airbnb.com/s/Paris--France/homes"⟩,
   ⟨"New York", "https://www.airbnb.com/s/New-York--NY--United-States/homes"⟩,
   ⟨"London", "https://www.airbnb.com/s/London--United-Kingdom/homes"⟩,
   ⟨"Dubai", "https://www.airbnb.com/s/Dubai--United-Arab-Emirates/homes"⟩]

/-- The discovery-handling step of `Scrape` (lines 497-501):
`if err != nil || len(sections) == 0 { sections = s.fallbackSections() }`.
The argument is the outcome of `discoverSections`. -/
def resolveSections (r : Except String (List LocationSection)) : List LocationSection :=
  match r with
  | Except.error _ => fallbackSections
  | Except.ok ss => if ss = [] then fallbackSections else ss

/-- Observable timing/attempt events of `RetryWithBackoff`. -/
inductive RetryEvent where
  | sleep (seconds : Nat)
  | attempt (i : Nat)
deriving DecidableEq

/-- `utils.RetryWithBackoff`, instrumented with its event trace. `op i` is
the outcome of attempt `i` (`none` = success, `some e` = failure with
error `e`). `rem` is the number of attempts still allowed and `a` the
0-indexed number of the next attempt (the Go loop counter); the loop runs
while `attempt < maxRetries`, i.e. while `rem > 0`, sleeping
`attempt² seconds` before every attempt but the first. On falling out of
the loop it returns an error carrying the total attempt count and wrapping
the last recorded error. -/
def retryAux {E : Type} (maxRetries : Nat) (op : Nat → Option E) :
    Nat → Nat → Option E → List RetryEvent × Except (Nat × Option E) Unit
  | 0, _, lastErr => ([], Except.error (maxRetries, lastErr))
  | rem + 1, a, _lastErr =>
    let evs := (if 0 < a then [RetryEvent.sleep (a * a)] else []) ++ [RetryEvent.attempt a]
    match op a with
    | none => (evs, Except.ok ())
    | some e =>
      let r := retryAux maxRetries op rem (a + 1) (some e)
      (evs ++ r.1, r.2)

def retryWithBackoff {E : Type} (maxRetries : Nat) (op : Nat → Option E) :
    List RetryEvent × Except (Nat × Option E) Unit :=
  retryAux maxRetries op maxRetries 0 none

/-- The event trace the spec prescribes for attempts `0..n-1`: attempt `i`
is preceded by a sleep of `i²` time units except attempt 0. -/
def attemptTrace (n : Nat) : List RetryEvent :=
  ((List.range' 0 n).map
    (fun i => (if 0 < i then [RetryEvent.sleep (i * i)] else []) ++ [RetryEvent.attempt i])).flatten

-- sanity checks of the crawl model
example : (URLTracker.Add ⟨["a"]⟩ "a").1 = false := by decide
example : runAdds ⟨[]⟩ ["a", "b", "a"] = [true, true, false] := by decide
example :
    retryWithBackoff 3 (fun _ => (some "x" : Option String)) =
      ([RetryEvent.attempt 0, RetryEvent.sleep 1, RetryEvent.attempt 1,
        RetryEvent.sleep 4, RetryEvent.attempt 2],
       Except.error (3, some "x")) := rfl
example : attemptTrace 3 =
    [RetryEvent.attempt 0, RetryEvent.sleep 1, RetryEvent.attempt 1,
     RetryEvent.sleep 4, RetryEvent.attempt 2] := rfl

/-- Event trace of attempts `a, a+1, ..., a+n-1`. -/
def traceFrom (a n : Nat) : List RetryEvent :=
  ((List.range' a n).map
    (fun i => (if 0 < i then [RetryEvent.sleep (i * i)] else []) ++ [RetryEvent.attempt i])).flatten

theorem attemptTrace_eq_traceFrom (n : Nat) : attemptTrace n = traceFrom 0 n := rfl

theorem traceFrom_succ (a n : Nat) :
    traceFrom a (n + 1) =
      ((if 0 < a then [RetryEvent.sleep (a * a)] else []) ++ [RetryEvent.attempt a]) ++
        traceFrom (a + 1) n := by
  simp [traceFrom, List.range'_succ]

theorem retryAux_fail {E : Type} (maxR : Nat) (op : Nat → Option E) :
    ∀ (rem a : Nat) (lastErr : Option E),
      (∀ i, a ≤ i → i < a + rem → (op i).isSome) →
      retryAux maxR op rem a lastErr =
        (traceFrom a rem,
         Except.error (maxR, if 0 < rem then op (a + rem - 1) else lastErr)) := by
  intro rem
  induction rem with
  | zero =>
    intro a lastErr _
    simp [retryAux, traceFrom]
  | succ n ih =>
    intro a lastErr h
    have ha : (op a).isSome := h a le_rfl (by omega)
    obtain ⟨e, he⟩ := Option.isSome_iff_exists.mp ha
    rw [retryAux, he]
    dsimp only
    rw [ih (a + 1) (some e) (fun i h1 h2 => h i (by omega) (by omega))]
    refine Prod.ext ?_ ?_
    · rw [traceFrom_succ]
    · show Except.error _ = Except.error _
      cases n with
      | zero => simp [← he]
      | succ m =>
        rw [if_pos (by omega : 0 < m + 1), if_pos (by omega : 0 < m + 1 + 1),
          show a + 1 + (m + 1) - 1 = a + (m + 1 + 1) - 1 from by omega]

theorem retryAux_succeed {E : Type} (maxR : Nat) (op : Nat → Option E) :
    ∀ (k : Nat), ∀ (rem a : Nat) (lastErr : Option E), k < rem →
      (∀ i, a ≤ i → i < a + k → (op i).isSome) → op (a + k) = none →
      retryAux maxR op rem a lastErr = (traceFrom a (k + 1), Except.ok ()) := by
  intro k
  induction k with
  | zero =>
    intro rem a lastErr hk _ hnone
    cases rem with
    | zero => omega
    | succ m =>
      rw [retryAux, show a + 0 = a from rfl] at *
      rw [hnone]
      refine Prod.ext ?_ rfl
      rw [traceFrom_succ]
      simp [traceFrom]
  | succ k ih =>
    intro rem a lastErr hk hpre hnone
    cases rem with
    | zero => omega
    | succ m =>
      have ha : (op a).isSome := hpre a le_rfl (by omega)
      obtain ⟨e, he⟩ := Option.isSome_iff_exists.mp ha
      rw [retryAux, he]
      dsimp only
      rw [ih m (a + 1) (some e) (by omega) (fun i h1 h2 => hpre i (by omega) (by omega))
        (by rw [show a + 1 + k = a + (k + 1) from by omega]; exact hnone)]
      refine Prod.ext ?_ rfl
      rw [traceFrom_succ a (k + 1)]

/-- C5: for every `maxAttempts ≥ 1`, running the retry executor with an
always-failing operation performs exactly `maxAttempts` attempts, sleeping
`i²` time units before attempt `i` (0-indexed, no sleep before attempt 0),
and returns an error carrying the total attempt count and wrapping the
last attempt's failure; success on attempt `k` short-circuits immediately
after attempts `0..k` with no further attempt or sleep. -/
theorem retryWithBackoff_spec {E : Type} (maxAttempts : Nat) (op : Nat → Option E) :
    (1 ≤ maxAttempts → (∀ i, i < maxAttempts → (op i).isSome) →
      retryWithBackoff maxAttempts op =
        (attemptTrace maxAttempts, Except.error (maxAttempts, op (maxAttempts - 1)))) ∧
    (∀ k, k < maxAttempts → (∀ i, i < k → (op i).isSome) → op k = none →
      retryWithBackoff maxAttempts op = (attemptTrace (k + 1), Except.ok ())) := by
  constructor
  · intro h1 hfail
    rw [retryWithBackoff,
      retryAux_fail maxAttempts op maxAttempts 0 none (fun i _ hi => hfail i (by omega)),
      if_pos (by omega), attemptTrace_eq_traceFrom, Nat.zero_add]
  · intro k hk hpre hnone
    rw [retryWithBackoff,
      retryAux_succeed maxAttempts op k maxAttempts 0 none hk
        (fun i _ hi => hpre i (by omega)) (by simpa using hnone),
      attemptTrace_eq_traceFrom]

/-- Witness for C5 at `maxAttempts = 3`: an always-failing operation gives
3 attempts with sleeps 1 and 4 and the wrapped last error; an operation
succeeding at attempt 0 stops after one attempt. -/
theorem retryWithBackoff_witness :
    retryWithBackoff 3 (fun _ => (some "boom" : Option String)) =
      ([RetryEvent.attempt 0, RetryEvent.sleep 1, RetryEvent.attempt 1,
        RetryEvent.sleep 4, RetryEvent.attempt 2], Except.error (3, some "boom")) ∧
    retryWithBackoff 3 (fun _ => (none : Option String)) =
      ([RetryEvent.attempt 0], Except.ok ()) := by
  constructor
  · have h := (retryWithBackoff_spec 3 (fun _ => (some "boom" : Option String))).1
      (by norm_num) (fun i _ => rfl)
    rw [h]
    rfl
  · have h := (retryWithBackoff_spec 3 (fun _ => (none : Option String))).2 0
      (by norm_num) (fun i hi => absurd hi (Nat.not_lt_zero i)) rfl
    rw [h]
    rfl

/-- Counterexample for C6: `Scrape` (lines 497-501) reacts to a hard
discovery error by falling back to the static section list — the run is
not aborted, contradicting "a hard I/O/navigation failure while loading
the entry page is fatal to the run (no fallback)". -/
theorem discovery_error_cex :
    resolveSections (Except.error "homepage load failed") = fallbackSections ∧
    fallbackSections ≠ [] := ⟨rfl, by decide⟩

/-- C6 (amended): both a hard discovery error and an error-free discovery
of zero sections fall back to the static, hardcoded seed list; a non-empty
discovery result is used as is; no discovery outcome aborts the run. -/
theorem resolveSections_spec :
    (∀ e, resolveSections (Except.error e) = fallbackSections) ∧
    resolveSections (Except.ok []) = fallbackSections ∧
    (∀ ss, ss ≠ [] → resolveSections (Except.ok ss) = ss) ∧
    fallbackSections.length = 10 := by
  refine ⟨fun e => rfl, rfl, ?_, rfl⟩
  intro ss h
  simp [resolveSections, h]

/-- Witness for C6's amended claim on a concrete non-empty discovery. -/
theorem resolveSections_witness :
    resolveSections (Except.ok [({ name := "Bangkok", url := "u" } : LocationSection)]) =
      [{ name := "Bangkok", url := "u" }] :=
  resolveSections_spec.2.2.1 _ (by decide)

/-- Counterexample for C7: with a fetch that fails every retry on the very
first page, `scrapeSection` returns a `nil` error — the failure is not
reported to the caller, contradicting "the error is reported to the
caller". -/
theorem scrapeSection_error_cex :
    (scrapeSection 5
        (fun _ => (Except.error "navigate failed" : Except String (List RawListing × String)))
        (fun _ => (Except.error "enrich" : Except String String)) 10 [] "seed").2 = none ∧
    (scrapeSection 5
        (fun _ => (Except.error "navigate failed" : Except String (List RawListing × String)))
        (fun _ => (Except.error "enrich" : Except String String)) 10 [] "seed").1.1.collected =
      [] := ⟨rfl, rfl⟩

/-- C7 (amended): when a section's page fetch exhausts all retries, the
section's pagination stops and the records already collected are returned
with a `nil` error (the failure is only logged, never surfaced to the
caller), and the run continues with the remaining sections unaffected — a
section whose seed fetch fails contributes nothing and aborts nothing. -/
theorem scrapeSection_failure_spec :
    (∀ quota fetch fd fuel seen url,
      (scrapeSection quota fetch fd fuel seen url).2 = none) ∧
    (∀ quota (fetch : String → String → Except String (List RawListing × String)) fd fuel
        (sec : LocationSection) rest seen acc e,
      fetch sec.name sec.url = Except.error e →
      scrapeAll quota fetch fd fuel (sec :: rest) seen acc =
        scrapeAll quota fetch fd fuel rest seen acc) := by
  constructor
  · intro quota fetch fd fuel seen url
    rfl
  · intro quota fetch fd fuel sec rest seen acc e he
    have hst : (scrapeSection quota (fetch sec.name) fd fuel seen sec.url).1.1 =
        ⟨seen, []⟩ := by
      cases fuel with
      | zero => rfl
      | succ n =>
        show (scrapeSectionLoop quota (fetch sec.name) fd (n + 1) ⟨seen, []⟩ sec.url).1 =
          ⟨seen, []⟩
        rw [scrapeSectionLoop]
        split
        · rw [he]
        · rfl
    simp only [scrapeAll]
    rw [hst]
    simp

/-- Witness for C7's amended claim: a failing first section leaves the run
identical to processing only the second section. -/
theorem scrapeSection_failure_witness :
    scrapeAll 2 (fun _ _ => (Except.error "nav" : Except String (List RawListing × String)))
        (fun _ => (Except.error "e" : Except String String)) 4
        [⟨"A", "ua"⟩, ⟨"B", "ub"⟩] [] [] =
      scrapeAll 2 (fun _ _ => (Except.error "nav" : Except String (List RawListing × String)))
        (fun _ => (Except.error "e" : Except String String)) 4 [⟨"B", "ub"⟩] [] [] :=
  scrapeSection_failure_spec.2 2 _ _ 4 ⟨"A", "ua"⟩ [⟨"B", "ub"⟩] [] [] "nav" rfl

/-- C9: enrichment assigns the extracted candidate to the record's
description only when it is non-empty and not case-insensitively equal
(after trimming) to the title; a candidate equal to the title, an empty
candidate, a fetch failure, or an empty url all leave the record
unchanged; in the assignment case only the description field changes. -/
theorem enrichDetail_spec (fd : String → Except String String) (l : RawListing) :
    (l.url = "" → enrichDetail fd l = l) ∧
    (∀ e, fd l.url = Except.error e → enrichDetail fd l = l) ∧
    (∀ d, fd l.url = Except.ok d → d = "" → enrichDetail fd l = l) ∧
    (∀ d, fd l.url = Except.ok d →
      eqFold (trimChars d.data) (trimChars l.title.data) = true → enrichDetail fd l = l) ∧
    (∀ d, fd l.url = Except.ok d → l.url ≠ "" → d ≠ "" →
      eqFold (trimChars d.data) (trimChars l.title.data) = false →
      enrichDetail fd l = { l with description := d }) := by
  refine ⟨?_, ?_, ?_, ?_, ?_⟩
  · intro h
    simp [enrichDetail, h]
  · intro e he
    by_cases hu : l.url = ""
    · simp [enrichDetail, hu]
    · simp [enrichDetail, hu, he]
  · intro d hd hde
    by_cases hu : l.url = ""
    · simp [enrichDetail, hu]
    · subst hde
      simp [enrichDetail, hu, hd]
  · intro d hd heq
    by_cases hu : l.url = ""
    · simp [enrichDetail, hu]
    · simp [enrichDetail, hu, hd, heq]
  · intro d hd hu hde heq
    simp [enrichDetail, hu, hd, hde, heq]

/-- Witness for C9: a candidate that echoes the title (up to case and
surrounding space) is rejected; a genuinely different candidate is
assigned. -/
theorem enrichDetail_witness :
    enrichDetail (fun _ => Except.ok "  MY title ")
        ⟨"Airbnb", "My Title", "$1", "L", "4.5", "u", "", 0⟩ =
      ⟨"Airbnb", "My Title", "$1", "L", "4.5", "u", "", 0⟩ ∧
    enrichDetail (fun _ => Except.ok "A lovely flat")
        ⟨"Airbnb", "My Title", "$1", "L", "4.5", "u", "", 0⟩ =
      ⟨"Airbnb", "My Title", "$1", "L", "4.5", "u", "A lovely flat", 0⟩ := by
  constructor
  · exact (enrichDetail_spec _ _).2.2.2.1 "  MY title " rfl (by decide)
  · exact (enrichDetail_spec _ _).2.2.2.2 "A lovely flat" rfl (by decide) (by decide) (by decide)

theorem filterPage_at_quota (quota : Nat) (fd : String → Except String String)
    (st : CrawlState) (listings : List RawListing) (h : quota ≤ st.collected.length) :
    filterPage quota fd st listings = (st, 0) := by
  cases listings with
  | nil => rfl
  | cons l rest => rw [filterPage, if_pos h]

theorem stepRecord_len (fd : String → Except String String) (st : CrawlState) (l : RawListing) :
    (stepRecord fd st l).collected.length ≤ st.collected.length + 1 := by
  unfold stepRecord
  split
  · omega
  · simp

theorem filterPage_len (quota : Nat) (fd : String → Except String String) :
    ∀ (listings : List RawListing) (st : CrawlState), st.collected.length ≤ quota →
      (filterPage quota fd st listings).1.collected.length ≤ quota := by
  intro listings
  induction listings with
  | nil => intro st h; exact h
  | cons l rest ih =>
    intro st h
    by_cases hq : quota ≤ st.collected.length
    · rw [filterPage, if_pos hq]
      exact h
    · rw [filterPage, if_neg hq]
      dsimp only
      apply ih
      have := stepRecord_len fd st l
      omega

theorem scrapeSectionLoop_at_quota (quota : Nat)
    (fetch : String → Except String (List RawListing × String))
    (fd : String → Except String String) (fuel : Nat) (st : CrawlState) (url : String)
    (h : quota ≤ st.collected.length) :
    scrapeSectionLoop quota fetch fd fuel st url = (st, 0, 0) := by
  cases fuel with
  | zero => rfl
  | succ n => rw [scrapeSectionLoop, if_neg (by omega)]

theorem scrapeSectionLoop_len (quota : Nat)
    (fetch : String → Except String (List RawListing × String))
    (fd : String → Except String String) :
    ∀ (fuel : Nat) (st : CrawlState) (url : String), st.collected.length ≤ quota →
      (scrapeSectionLoop quota fetch fd fuel st url).1.collected.length ≤ quota := by
  intro fuel
  induction fuel with
  | zero => intro st url h; exact h
  | succ n ih =>
    intro st url h
    rw [scrapeSectionLoop]
    split
    · split
      · exact h
      · split
        · exact h
        · dsimp only
          split
          · exact filterPage_len _ _ _ _ h
          · exact ih _ _ (filterPage_len _ _ _ _ h)
    · exact h

/-- C1: with quota `q ≥ 0`, the collected list never exceeds `q` records
at any point of the pagination loop, and the moment `|collected| = q` the
loop stops dead: no further page is fetched, no further candidate is
examined, and the state is returned unchanged (the returned page-fetch and
candidate-examination counters are both 0). -/
theorem scrapeSection_quota_spec (quota : Nat)
    (fetch : String → Except String (List RawListing × String))
    (fd : String → Except String String) (fuel : Nat) (st : CrawlState) (url : String)
    (h : st.collected.length ≤ quota) :
    (scrapeSectionLoop quota fetch fd fuel st url).1.collected.length ≤ quota ∧
    (st.collected.length = quota →
      scrapeSectionLoop quota fetch fd fuel st url = (st, 0, 0)) ∧
    (∀ listings, st.collected.length = quota → filterPage quota fd st listings = (st, 0)) := by
  refine ⟨scrapeSectionLoop_len quota fetch fd fuel st url h, ?_, ?_⟩
  · intro he
    exact scrapeSectionLoop_at_quota quota fetch fd fuel st url (by omega)
  · intro listings he
    exact filterPage_at_quota quota fd st listings (by omega)

/-- Witness for C1 at quota 1: a page with two fresh candidates yields at
most one collected record, and a loop or page entered with the quota
already met does nothing. -/
theorem scrapeSection_quota_witness :
    (scrapeSectionLoop 1
        (fun _ => Except.ok ([⟨"Airbnb", "t1", "$10", "L", "4.5", "u1", "d", 0⟩,
          ⟨"Airbnb", "t2", "$20", "L", "4.6", "u2", "d", 0⟩], "next"))
        (fun _ => Except.error "e") 5 ⟨[], []⟩ "seed").1.collected.length ≤ 1 ∧
    scrapeSectionLoop 1 (fun _ => Except.ok ([], "")) (fun _ => Except.error "e") 5
        ⟨[], [⟨"Airbnb", "t0", "$5", "L", "4.0", "u0", "d", 0⟩]⟩ "seed" =
      (⟨[], [⟨"Airbnb", "t0", "$5", "L", "4.0", "u0", "d", 0⟩]⟩, 0, 0) ∧
    filterPage 1 (fun _ => Except.error "e")
        ⟨[], [⟨"Airbnb", "t0", "$5", "L", "4.0", "u0", "d", 0⟩]⟩
        [⟨"Airbnb", "t3", "$9", "L", "4.2", "u3", "d", 0⟩] =
      (⟨[], [⟨"Airbnb", "t0", "$5", "L", "4.0", "u0", "d", 0⟩]⟩, 0) := by
  refine ⟨?_, ?_, ?_⟩
  · exact (scrapeSection_quota_spec 1
      (fun _ => Except.ok ([⟨"Airbnb", "t1", "$10", "L", "4.5", "u1", "d", 0⟩,
        ⟨"Airbnb", "t2", "$20", "L", "4.6", "u2", "d", 0⟩], "next"))
      (fun _ => Except.error "e") 5 ⟨[], []⟩ "seed" (by decide)).1
  · exact (scrapeSection_quota_spec 1 (fun _ => Except.ok ([], ""))
      (fun _ => Except.error "e") 5 ⟨[], [⟨"Airbnb", "t0", "$5", "L", "4.0", "u0", "d", 0⟩]⟩
      "seed" (by decide)).2.1 (by decide)
  · exact (scrapeSection_quota_spec 1 (fun _ => Except.error "x")
      (fun _ => Except.error "e") 5 ⟨[], [⟨"Airbnb", "t0", "$5", "L", "4.0", "u0", "d", 0⟩]⟩
      "seed" (by decide)).2.2 [⟨"Airbnb", "t3", "$9", "L", "4.2", "u3", "d", 0⟩] (by decide)

theorem add_fst (t : URLTracker) (k : String) : (t.Add k).1 = decide (k ∉ t.seen) := by
  by_cases h : k ∈ t.seen <;> simp [URLTracker.Add, h]

theorem runAdds_get :
    ∀ (pre : List String) (t : URLTracker) (k : String) (post : List String),
      (runAdds t (pre ++ k :: post))[pre.length]? =
        some (decide (k ∉ (foldAdds t pre).seen)) := by
  intro pre
  induction pre with
  | nil =>
    intro t k post
    simp [runAdds, foldAdds, add_fst]
  | cons p pre ih =>
    intro t k post
    simpa [runAdds, foldAdds] using ih (t.Add p).2 k post

theorem foldAdds_mem (k : String) :
    ∀ (ks : List String) (t : URLTracker),
      k ∈ (foldAdds t ks).seen ↔ k ∈ t.seen ∨ k ∈ ks := by
  intro ks
  induction ks with
  | nil =>
    intro t
    simp [foldAdds]
  | cons c ks ih =>
    intro t
    rw [show foldAdds t (c :: ks) = foldAdds (t.Add c).2 ks from rfl, ih]
    by_cases h : c ∈ t.seen
    · simp only [URLTracker.Add, if_pos h]
      constructor
      · rintro (hs | hks)
        · exact Or.inl hs
        · exact Or.inr (List.mem_cons_of_mem c hks)
      · rintro (hs | hck)
        · exact Or.inl hs
        · rcases List.mem_cons.mp hck with rfl | hks
          · exact Or.inl h
          · exact Or.inr hks
    · simp only [URLTracker.Add, if_neg h]
      simp only [List.mem_cons]
      tauto

theorem enrichDetail_url (fd : String → Except String String) (l : RawListing) :
    (enrichDetail fd l).url = l.url := by
  unfold enrichDetail
  split
  · rfl
  · split
    · rfl
    · split
      · rfl
      · rfl

/-- Invariant carried by the crawl filter: every record kept so far (the
run accumulator plus the current section's collected list) has its url in
the shared seen set, and no two kept records share a url. -/
def NoDupUrls (acc : List RawListing) (st : CrawlState) : Prop :=
  (∀ l ∈ acc ++ st.collected, l.url ∈ st.seen) ∧
  (acc ++ st.collected).Pairwise (fun a b => a.url ≠ b.url)

theorem stepRecord_inv (fd : String → Except String String) (st : CrawlState) (l : RawListing)
    (acc : List RawListing) (h : NoDupUrls acc st) :
    NoDupUrls acc (stepRecord fd st l) ∧ st.seen ⊆ (stepRecord fd st l).seen := by
  obtain ⟨hmem, hpw⟩ := h
  unfold stepRecord
  split
  · exact ⟨⟨hmem, hpw⟩, fun x hx => hx⟩
  · next hnot =>
    have hurl : (if l.description = "" ∧ l.url ≠ "" then enrichDetail fd l else l).url = l.url := by
      split
      · exact enrichDetail_url fd l
      · rfl
    refine ⟨⟨?_, ?_⟩, ?_⟩
    · intro x hx
      dsimp only at hx ⊢
      rw [← List.append_assoc] at hx
      rcases List.mem_append.mp hx with hx1 | hx2
      · exact List.mem_cons_of_mem _ (hmem x hx1)
      · rw [List.mem_singleton.mp hx2, hurl]
        exact List.mem_cons_self _ _
    · dsimp only
      rw [← List.append_assoc]
      apply List.pairwise_append.mpr
      refine ⟨hpw, List.pairwise_singleton _ _, ?_⟩
      intro a ha b hb
      rw [List.mem_singleton.mp hb, hurl]
      exact fun he => hnot (he ▸ hmem a ha)
    · intro x hx
      exact List.mem_cons_of_mem _ hx

theorem filterPage_inv (quota : Nat) (fd : String → Except String String) :
    ∀ (listings : List RawListing) (st : CrawlState) (acc : List RawListing),
      NoDupUrls acc st →
      NoDupUrls acc (filterPage quota fd st listings).1 ∧
      st.seen ⊆ (filterPage quota fd st listings).1.seen := by
  intro listings
  induction listings with
  | nil =>
    intro st acc h
    exact ⟨h, fun x hx => hx⟩
  | cons l rest ih =>
    intro st acc h
    by_cases hq : quota ≤ st.collected.length
    · rw [filterPage, if_pos hq]
      exact ⟨h, fun x hx => hx⟩
    · rw [filterPage, if_neg hq]
      dsimp only
      obtain ⟨h1, h2⟩ := stepRecord_inv fd st l acc h
      obtain ⟨h3, h4⟩ := ih (stepRecord fd st l) acc h1
      exact ⟨h3, fun x hx => h4 (h2 hx)⟩

theorem scrapeSectionLoop_inv (quota : Nat)
    (fetch : String → Except String (List RawListing × String))
    (fd : String → Except String String) :
    ∀ (fuel : Nat) (st : CrawlState) (url : String) (acc : List RawListing),
      NoDupUrls acc st →
      NoDupUrls acc (scrapeSectionLoop quota fetch fd fuel st url).1 ∧
      st.seen ⊆ (scrapeSectionLoop quota fetch fd fuel st url).1.seen := by
  intro fuel
  induction fuel with
  | zero =>
    intro st url acc h
    exact ⟨h, fun x hx => hx⟩
  | succ n ih =>
    intro st url acc h
    rw [scrapeSectionLoop]
    split
    · split
      · exact ⟨h, fun x hx => hx⟩
      · split
        · exact ⟨h, fun x hx => hx⟩
        · dsimp only
          obtain ⟨h1, h2⟩ := filterPage_inv quota fd _ st acc h
          split
          · exact ⟨h1, h2⟩
          · obtain ⟨h3, h4⟩ := ih _ _ acc h1
            exact ⟨h3, fun x hx => h4 (h2 hx)⟩
    · exact ⟨h, fun x hx => hx⟩

theorem scrapeAll_inv (quota : Nat)
    (fetch : String → String → Except String (List RawListing × String))
    (fd : String → Except String String) (fuel : Nat) :
    ∀ (sections : List LocationSection) (seen : List String) (acc : List RawListing),
      NoDupUrls acc ⟨seen, []⟩ →
      (∀ l ∈ (scrapeAll quota fetch fd fuel sections seen acc).2,
        l.url ∈ (scrapeAll quota fetch fd fuel sections seen acc).1) ∧
      (scrapeAll quota fetch fd fuel sections seen acc).2.Pairwise
        (fun a b => a.url ≠ b.url) := by
  intro sections
  induction sections with
  | nil =>
    intro seen acc h
    obtain ⟨h1, h2⟩ := h
    simp only [scrapeAll]
    constructor
    · intro l hl
      exact h1 l (by simpa using hl)
    · simpa using h2
  | cons sec rest ih =>
    intro seen acc h
    simp only [scrapeAll, scrapeSection]
    apply ih
    obtain ⟨h1, h2⟩ :=
      scrapeSectionLoop_inv quota (fetch sec.name) fd fuel ⟨seen, []⟩ sec.url acc h
    constructor
    · intro l hl
      exact h1.1 l (by simpa using hl)
    · simpa using h1.2

theorem countP_le_one_of_pairwise {α : Type} (p : α → Bool) :
    ∀ (l : List α), l.Pairwise (fun a b => ¬(p a = true ∧ p b = true)) → l.countP p ≤ 1 := by
  intro l
  induction l with
  | nil =>
    intro _
    simp
  | cons a t ih =>
    intro h
    obtain ⟨hrel, ht⟩ := List.pairwise_cons.mp h
    rw [List.countP_cons]
    by_cases hp : p a = true
    · have hz : t.countP p = 0 := by
        apply List.countP_eq_zero.mpr
        intro b hb hpb
        exact hrel b hb ⟨hp, hpb⟩
      rw [hz]
      simp [hp]
    · have hb : p a = false := by
        cases hpa : p a
        · rfl
        · exact absurd hpa hp
      rw [hb]
      simpa using ih ht

/-- C2: `URLTracker.Add` returns true exactly for the first occurrence of
a key in a call sequence (position `|pre|` of the results is true iff the
key is absent from `pre`), keys stay recorded and are never removed
(membership after a call sequence is membership before or occurrence in
the sequence), and consequently no two records kept by the crawl filter of
a run share a non-empty url. -/
theorem dedup_spec :
    (∀ (pre : List String) (k : String) (post : List String),
      (runAdds ⟨[]⟩ (pre ++ k :: post))[pre.length]? = some (decide (k ∉ pre))) ∧
    (∀ (t : URLTracker) (ks : List String) (k : String),
      k ∈ (foldAdds t ks).seen ↔ k ∈ t.seen ∨ k ∈ ks) ∧
    (∀ (quota : Nat) (fetch : String → String → Except String (List RawListing × String))
        (fd : String → Except String String) (fuel : Nat)
        (sections : List LocationSection),
      (scrapeAll quota fetch fd fuel sections [] []).2.Pairwise
        (fun a b => a.url ≠ "" → a.url ≠ b.url)) := by
  refine ⟨?_, ?_, ?_⟩
  · intro pre k post
    rw [runAdds_get pre ⟨[]⟩ k post]
    congr 1
    apply decide_eq_decide.mpr
    rw [foldAdds_mem]
    simp
  · intro t ks k
    exact foldAdds_mem k ks t
  · intro quota fetch fd fuel sections
    have h := scrapeAll_inv quota fetch fd fuel sections [] [] (by constructor <;> simp)
    exact h.2.imp (fun hne => fun _ => hne)

/-- Witness for C2 on concrete data: a repeated key gets `false` the
second time, tracker membership accumulates, and a run whose pages repeat
one url keeps no two records with that url. -/
theorem dedup_witness :
    (runAdds ⟨[]⟩ (["a"] ++ "a" :: []))[(["a"] : List String).length]? =
      some (decide ("a" ∉ (["a"] : List String))) ∧
    ("x" ∈ (foldAdds ⟨["s"]⟩ ["x"]).seen ↔ "x" ∈ (["s"] : List String) ∨
      "x" ∈ (["x"] : List String)) ∧
    (scrapeAll 2
        (fun _ _ => Except.ok ([⟨"Airbnb", "t", "", "L", "", "u", "d", 0⟩,
          ⟨"Airbnb", "t2", "", "L", "", "u", "d", 0⟩], ""))
        (fun _ => Except.error "e") 3 [⟨"A", "ua"⟩] [] []).2.Pairwise
      (fun a b => a.url ≠ "" → a.url ≠ b.url) :=
  ⟨dedup_spec.1 ["a"] "a" [], dedup_spec.2.1 ⟨["s"]⟩ ["x"] "x",
   dedup_spec.2.2 2 _ _ 3 [⟨"A", "ua"⟩]⟩

/-- C10: across a whole run started from a fresh seen set, at most one
kept record has an empty url (the crawl filter keys on the raw url — the
first empty-url record records `""` in the shared seen set and every later
empty-url record, from any page or section, is dropped); moreover if any
kept record has an empty url then `""` is in the final seen set. -/
theorem empty_url_spec (quota : Nat)
    (fetch : String → String → Except String (List RawListing × String))
    (fd : String → Except String String) (fuel : Nat) (sections : List LocationSection) :
    (scrapeAll quota fetch fd fuel sections [] []).2.countP
        (fun l => decide (l.url = "")) ≤ 1 ∧
    (∀ l ∈ (scrapeAll quota fetch fd fuel sections [] []).2, l.url = "" →
      "" ∈ (scrapeAll quota fetch fd fuel sections [] []).1) := by
  have h := scrapeAll_inv quota fetch fd fuel sections [] [] (by constructor <;> simp)
  constructor
  · apply countP_le_one_of_pairwise
    refine h.2.imp ?_
    intro a b hne hc
    exact hne (by rw [of_decide_eq_true hc.1, of_decide_eq_true hc.2])
  · intro l hl hurl
    have hm := h.1 l hl
    rwa [hurl] at hm

/-- Witness for C10: two sections whose pages each offer two empty-url
records still yield at most one kept empty-url record. -/
theorem empty_url_witness :
    (scrapeAll 3
        (fun _ _ => Except.ok ([⟨"Airbnb", "t1", "", "L", "", "", "d", 0⟩,
          ⟨"Airbnb", "t2", "", "L", "", "", "d", 0⟩], ""))
        (fun _ => Except.error "e") 3 [⟨"A", "ua"⟩, ⟨"B", "ub"⟩] [] []).2.countP
      (fun l => decide (l.url = "")) ≤ 1 :=
  (empty_url_spec 3 _ _ 3 _).1

theorem lastIdxBelow_spec (pat s : List Char) :
    ∀ n : Nat,
      (∀ i, lastIdxBelow pat s n = some i →
        i < n ∧ List.isPrefixOf pat (s.drop i) = true ∧
        ∀ j, i < j → j < n → List.isPrefixOf pat (s.drop j) = false) ∧
      (lastIdxBelow pat s n = none →
        ∀ j, j < n → List.isPrefixOf pat (s.drop j) = false) := by
  intro n
  induction n with
  | zero =>
    constructor
    · intro i hi
      cases hi
    · intro _ j hj
      omega
  | succ n ih =>
    constructor
    · intro i hi
      rw [lastIdxBelow] at hi
      by_cases hp : List.isPrefixOf pat (s.drop n) = true
      · rw [if_pos hp] at hi
        cases hi
        exact ⟨Nat.lt_succ_self n, hp, fun j hj1 hj2 => by omega⟩
      · have hp2 : List.isPrefixOf pat (s.drop n) = false := by
          cases hb : List.isPrefixOf pat (s.drop n)
          · rfl
          · exact absurd hb hp
        rw [if_neg hp] at hi
        obtain ⟨h1, h2, h3⟩ := ih.1 i hi
        refine ⟨by omega, h2, fun j hj1 hj2 => ?_⟩
        by_cases hjn : j = n
        · rw [hjn]
          exact hp2
        · exact h3 j hj1 (by omega)
    · intro hi j hj
      rw [lastIdxBelow] at hi
      by_cases hp : List.isPrefixOf pat (s.drop n) = true
      · rw [if_pos hp] at hi
        cases hi
      · have hp2 : List.isPrefixOf pat (s.drop n) = false := by
          cases hb : List.isPrefixOf pat (s.drop n)
          · rfl
          · exact absurd hb hp
        rw [if_neg hp] at hi
        by_cases hjn : j = n
        · rw [hjn]
          exact hp2
        · exact ih.2 hi j (by omega)

/-- Counterexample for C8: this location contains `" in "` starting at
index 5, well inside the first 30 characters, yet `cleanLocation` leaves
it unchanged — because the code tests `strings.LastIndex`, and the *last*
occurrence starts at index 34 ≥ 30. The claim instead requires the portion
after the last early occurrence (or, reading "last" globally, after index
34) to be kept. -/
theorem cleanLocation_cex :
    List.isPrefixOf inPat
      ((trimChars ("Condo in AAAAAAAAAAAAAAAAAAAAAAAAA in Bangkok" : String).data).drop 5) =
      true ∧
    (5 : Nat) < 30 ∧
    cleanLocation "Condo in AAAAAAAAAAAAAAAAAAAAAAAAA in Bangkok" =
      "Condo in AAAAAAAAAAAAAAAAAAAAAAAAA in Bangkok" ∧
    cleanLocation "Condo in AAAAAAAAAAAAAAAAAAAAAAAAA in Bangkok" ≠
      "AAAAAAAAAAAAAAAAAAAAAAAAA in Bangkok" ∧
    cleanLocation "Condo in AAAAAAAAAAAAAAAAAAAAAAAAA in Bangkok" ≠ "Bangkok" := by
  refine ⟨by decide, by decide, by decide, by decide, by decide⟩

/-- C8 (amended): after trimming, `cleanLocation` strips exactly when the
*last* occurrence of `" in "` in the whole string starts before index 30,
keeping the portion after that occurrence; when the last occurrence starts
at index 30 or later — even if an earlier occurrence lies inside the first
30 characters — or when there is no occurrence, the (trimmed) location is
returned unchanged. -/
theorem cleanLocation_spec (loc : String) :
    (∀ i, lastIndex inPat (trimChars loc.data) = some i →
      List.isPrefixOf inPat ((trimChars loc.data).drop i) = true ∧
      (∀ j, i < j → List.isPrefixOf inPat ((trimChars loc.data).drop j) = false) ∧
      (i < 30 → cleanLocation loc = String.mk ((trimChars loc.data).drop (i + 4))) ∧
      (30 ≤ i → cleanLocation loc = String.mk (trimChars loc.data))) ∧
    (lastIndex inPat (trimChars loc.data) = none →
      (∀ j, List.isPrefixOf inPat ((trimChars loc.data).drop j) = false) ∧
      cleanLocation loc = String.mk (trimChars loc.data)) := by
  constructor
  · intro i hi
    have hs := (lastIdxBelow_spec inPat (trimChars loc.data)
      ((trimChars loc.data).length + 1)).1 i hi
    refine ⟨hs.2.1, ?_, ?_, ?_⟩
    · intro j hj
      by_cases hjl : j < (trimChars loc.data).length + 1
      · exact hs.2.2 j hj hjl
      · rw [List.drop_eq_nil_of_le (by omega)]
        rfl
    · intro h30
      simp only [cleanLocation, hi]
      rw [if_pos h30]
    · intro h30
      simp only [cleanLocation, hi]
      rw [if_neg (by omega)]
  · intro hi
    constructor
    · intro j
      by_cases hjl : j < (trimChars loc.data).length + 1
      · exact (lastIdxBelow_spec inPat (trimChars loc.data) _).2 hi j hjl
      · rw [List.drop_eq_nil_of_le (by omega)]
        rfl
    · simp only [cleanLocation, hi]

/-- Witness for C8's amended claim: in "Condo in Bangkok" the last
occurrence of `" in "` starts at index 5 < 30 and the portion after it is
kept. -/
theorem cleanLocation_witness :
    List.isPrefixOf inPat ((trimChars ("Condo in Bangkok" : String).data).drop 5) = true ∧
    cleanLocation "Condo in Bangkok" =
      String.mk ((trimChars ("Condo in Bangkok" : String).data).drop (5 + 4)) := by
  have h := (cleanLocation_spec "Condo in Bangkok").1 5 (by decide)
  exact ⟨h.1, h.2.2.1 (by norm_num)⟩

theorem ne_of_isDig {c d : Char} (h : isDig c = true) (hd : isDig d = false) : c ≠ d := by
  intro he
  rw [he, hd] at h
  cases h

theorem isWS_of_isDig (c : Char) (h : isDig c = true) : isWS c = false := by
  cases hw : isWS c
  · rfl
  · exfalso
    simp [isWS] at hw
    rcases hw with (((rfl | rfl) | rfl) | rfl) | rfl <;> exact absurd h (by decide)

theorem takeWhile_all_append {α : Type} (p : α → Bool) :
    ∀ (l1 l2 : List α), (∀ a ∈ l1, p a = true) →
      (l1 ++ l2).takeWhile p = l1 ++ l2.takeWhile p := by
  intro l1
  induction l1 with
  | nil =>
    intro l2 _
    simp
  | cons a t ih =>
    intro l2 h
    rw [List.cons_append, List.takeWhile_cons, h a (List.mem_cons_self a t)]
    simp only [if_true]
    rw [ih l2 (fun b hb => h b (List.mem_cons_of_mem a hb)), List.cons_append]

theorem dropWhile_all_append {α : Type} (p : α → Bool) :
    ∀ (l1 l2 : List α), (∀ a ∈ l1, p a = true) →
      (l1 ++ l2).dropWhile p = l2.dropWhile p := by
  intro l1
  induction l1 with
  | nil =>
    intro l2 _
    simp
  | cons a t ih =>
    intro l2 h
    rw [List.cons_append, List.dropWhile_cons, h a (List.mem_cons_self a t)]
    simp only [if_true]
    exact ih l2 (fun b hb => h b (List.mem_cons_of_mem a hb))

theorem priceCapture_digits (X : List Char) (hX : ∀ a ∈ X, isDig a = true) (rest : List Char)
    (hr : rest = [] ∨ ∃ t, rest = ' ' :: t) :
    priceCapture (X ++ rest) = (X, []) := by
  have ht := takeWhile_all_append isDig X rest hX
  have hd := dropWhile_all_append isDig X rest hX
  rcases hr with rfl | ⟨t, rfl⟩
  · unfold priceCapture
    rw [ht, hd]
    simp
  · have hdw : (X ++ ' ' :: t).dropWhile isDig = ' ' :: t := by
      rw [hd, List.dropWhile_cons]
      simp [show isDig ' ' = false from rfl]
    have htw : (X ++ ' ' :: t).takeWhile isDig = X := by
      rw [ht, List.takeWhile_cons]
      simp [show isDig ' ' = false from rfl]
    unfold priceCapture
    rw [hdw, htw]
    dsimp only
    split
    · next heq => simp at heq
    · rfl

theorem findPriceMatch_dollar (X : List Char) (hne : X ≠ []) (hX : ∀ a ∈ X, isDig a = true)
    (rest : List Char) (hr : rest = [] ∨ ∃ t, rest = ' ' :: t) :
    findPriceMatch ('$' :: (X ++ rest)) = some (X, []) := by
  obtain ⟨x, X2, rfl⟩ := List.exists_cons_of_ne_nil hne
  have hx : isDig x = true := hX x (List.mem_cons_self x X2)
  rw [show ('$' :: ((x :: X2) ++ rest)) = '$' :: x :: (X2 ++ rest) from rfl]
  rw [findPriceMatch]
  rw [if_neg (by decide : ¬ (isDig '$' = true)), if_pos rfl]
  rw [if_pos hx]
  rw [show x :: (X2 ++ rest) = (x :: X2) ++ rest from rfl,
    priceCapture_digits (x :: X2) hX rest hr]

theorem matchNightsAt_ne (c : Char) (t : List Char) (h : c ≠ 'f') :
    matchNightsAt (c :: t) = none := by
  unfold matchNightsAt
  split
  · simp_all
  · rfl

theorem findNights_skip (cs : List Char) (h : ∀ c ∈ cs, c ≠ 'f') (rest : List Char) :
    findNights (cs ++ rest) = findNights rest := by
  induction cs with
  | nil => rfl
  | cons c t ih =>
    rw [List.cons_append, findNights,
      matchNightsAt_ne c _ (h c (List.mem_cons_self c t))]
    exact ih (fun a ha => h a (List.mem_cons_of_mem c ha))

theorem matchNightsAt_for (N : List Char) (hne : N ≠ []) (hN : ∀ a ∈ N, isDig a = true)
    (t4 : List Char) :
    matchNightsAt ('f' :: 'o' :: 'r' :: ' ' ::
        (N ++ (' ' :: 'n' :: 'i' :: 'g' :: 'h' :: 't' :: t4))) = some (natOfDigits N) := by
  obtain ⟨n1, N2, rfl⟩ := List.exists_cons_of_ne_nil hne
  have h1 : isDig n1 = true := hN n1 (List.mem_cons_self n1 N2)
  have hnws : isWS n1 = false := isWS_of_isDig n1 h1
  have e1 : (' ' :: ((n1 :: N2) ++ (' ' :: 'n' :: 'i' :: 'g' :: 'h' :: 't' :: t4))).takeWhile
      isWS = [' '] := by
    simp [List.takeWhile_cons, show isWS ' ' = true from rfl, hnws]
  have e2 : (' ' :: ((n1 :: N2) ++ (' ' :: 'n' :: 'i' :: 'g' :: 'h' :: 't' :: t4))).dropWhile
      isWS = (n1 :: N2) ++ (' ' :: 'n' :: 'i' :: 'g' :: 'h' :: 't' :: t4) := by
    simp [List.dropWhile_cons, show isWS ' ' = true from rfl, hnws]
  have e3 : ((n1 :: N2) ++ (' ' :: 'n' :: 'i' :: 'g' :: 'h' :: 't' :: t4)).takeWhile isDig =
      n1 :: N2 := by
    rw [takeWhile_all_append isDig (n1 :: N2) _ hN, List.takeWhile_cons]
    simp [show isDig ' ' = false from rfl]
  have e4 : ((n1 :: N2) ++ (' ' :: 'n' :: 'i' :: 'g' :: 'h' :: 't' :: t4)).dropWhile isDig =
      ' ' :: 'n' :: 'i' :: 'g' :: 'h' :: 't' :: t4 := by
    rw [dropWhile_all_append isDig (n1 :: N2) _ hN, List.dropWhile_cons]
    simp [show isDig ' ' = false from rfl]
  have e5 : (' ' :: 'n' :: 'i' :: 'g' :: 'h' :: 't' :: t4).takeWhile isWS = [' '] := by
    simp [List.takeWhile_cons, show isWS ' ' = true from rfl, show isWS 'n' = false from rfl]
  have e6 : (' ' :: 'n' :: 'i' :: 'g' :: 'h' :: 't' :: t4).dropWhile isWS =
      'n' :: 'i' :: 'g' :: 'h' :: 't' :: t4 := by
    simp [List.dropWhile_cons, show isWS ' ' = true from rfl, show isWS 'n' = false from rfl]
  unfold matchNightsAt
  simp only [e1, e2, e3, e4, e5, e6]
  simp

theorem findNights_priceString (X N : List Char) (hX : ∀ a ∈ X, isDig a = true)
    (hNne : N ≠ []) (hN : ∀ a ∈ N, isDig a = true) (t4 : List Char) :
    findNights (('$' :: X) ++ (' ' :: 'f' :: 'o' :: 'r' :: ' ' ::
        (N ++ (' ' :: 'n' :: 'i' :: 'g' :: 'h' :: 't' :: t4)))) = some (natOfDigits N) := by
  have hnf : ∀ c ∈ '$' :: X, c ≠ 'f' := by
    intro c hc
    rcases List.mem_cons.mp hc with rfl | hc2
    · decide
    · exact ne_of_isDig (hX c hc2) (by decide)
  rw [findNights_skip ('$' :: X) hnf, findNights,
    matchNightsAt_ne ' ' _ (by decide)]
  rw [findNights, matchNightsAt_for N hNne hN t4]

theorem findNights_bare (X : List Char) (hX : ∀ a ∈ X, isDig a = true) :
    findNights ('$' :: X) = none := by
  have hnf : ∀ c ∈ '$' :: X, c ≠ 'f' := by
    intro c hc
    rcases List.mem_cons.mp hc with rfl | hc2
    · decide
    · exact ne_of_isDig (hX c hc2) (by decide)
  rw [show ('$' :: X) = ('$' :: X) ++ [] from by rw [List.append_nil],
    findNights_skip ('$' :: X) hnf]
  rfl

theorem filter_comma_eq_self (l : List Char) (h : ∀ a ∈ l, a ≠ ',') :
    l.filter (fun c => c ≠ ',') = l := by
  induction l with
  | nil => rfl
  | cons c t ih =>
    rw [List.filter_cons, if_pos (by simpa using h c (List.mem_cons_self c t))]
    rw [ih (fun a ha => h a (List.mem_cons_of_mem c ha))]

theorem ratOfParts_nil (X : List Char) : ratOfParts X [] = (natOfDigits X : ℚ) := by
  rw [ratOfParts, show natOfDigits [] = 0 from rfl]
  norm_num

theorem ratOfParts_nonneg (ip fp : List Char) : 0 ≤ ratOfParts ip fp := by
  unfold ratOfParts
  positivity

theorem no_comma_priceString (X N : List Char) (hX : ∀ a ∈ X, isDig a = true)
    (hN : ∀ a ∈ N, isDig a = true) :
    ∀ a ∈ '$' :: (X ++ (' ' :: 'f' :: 'o' :: 'r' :: ' ' ::
      (N ++ (' ' :: 'n' :: 'i' :: 'g' :: 'h' :: 't' :: 's' :: [])))), a ≠ ',' := by
  intro a ha hc
  subst hc
  simp at ha
  rcases ha with h | h
  · exact absurd (hX _ h) (by decide)
  · exact absurd (hN _ h) (by decide)

theorem no_comma_bare (X : List Char) (hX : ∀ a ∈ X, isDig a = true) :
    ∀ a ∈ '$' :: X, a ≠ ',' := by
  intro a ha hc
  subst hc
  simp at ha
  exact absurd (hX _ ha) (by decide)

/-- C3: `parsePrice` returns the per-night price. On text of the shape
`$X for N nights` (`X`, `N` digit strings, the parsed night count
positive) it returns the value of `X` divided by the value of `N`; on a
bare `$X` it returns the value of `X`; on text the price regexp cannot
match at all it returns 0. In particular the spec's four examples hold:
`$71 for 2 nights ↦ 35.5`, `$50 ↦ 50`, `"" ↦ 0`, `free stay ↦ 0`. -/
theorem parsePrice_spec :
    parsePrice "$71 for 2 nights" = 71 / 2 ∧
    parsePrice "$50" = 50 ∧
    parsePrice "" = 0 ∧
    parsePrice "free stay" = 0 ∧
    (∀ X N : List Char, X ≠ [] → (∀ a ∈ X, isDig a = true) →
      N ≠ [] → (∀ a ∈ N, isDig a = true) → 0 < natOfDigits N →
      parsePrice (String.mk ('$' :: (X ++ (' ' :: 'f' :: 'o' :: 'r' :: ' ' ::
          (N ++ (' ' :: 'n' :: 'i' :: 'g' :: 'h' :: 't' :: 's' :: [])))))) =
        (natOfDigits X : ℚ) / (natOfDigits N : ℚ)) ∧
    (∀ X : List Char, X ≠ [] → (∀ a ∈ X, isDig a = true) →
      parsePrice (String.mk ('$' :: X)) = (natOfDigits X : ℚ)) ∧
    (∀ raw : String, findPriceMatch (raw.data.filter (fun c => c ≠ ',')) = none →
      parsePrice raw = 0) := by
  refine ⟨?_, ?_, ?_, ?_, ?_, ?_, ?_⟩
  · have h := (parsePrice_chars "$71 for 2 nights" ['7', '1'] []
      (by decide) (by decide)).2 2 (by decide)
    rw [h, if_pos (by norm_num), ratOfParts_nil,
      show natOfDigits ['7', '1'] = 71 from rfl]
    norm_num
  · have h := (parsePrice_chars "$50" ['5', '0'] [] (by decide) (by decide)).1 (by decide)
    rw [h, ratOfParts_nil, show natOfDigits ['5', '0'] = 50 from rfl]
    norm_num
  · exact parsePrice_none "" (Or.inl rfl)
  · exact parsePrice_none "free stay" (Or.inr (by decide))
  · intro X N hXne hX hNne hN h0
    have hraw : ¬ (String.mk ('$' :: (X ++ (' ' :: 'f' :: 'o' :: 'r' :: ' ' ::
        (N ++ (' ' :: 'n' :: 'i' :: 'g' :: 'h' :: 't' :: 's' :: []))))) = "") := by
      intro h
      cases (congrArg String.data h)
    have hfil : (String.mk ('$' :: (X ++ (' ' :: 'f' :: 'o' :: 'r' :: ' ' ::
        (N ++ (' ' :: 'n' :: 'i' :: 'g' :: 'h' :: 't' :: 's' :: [])))))).data.filter
        (fun c => c ≠ ',') =
        '$' :: (X ++ (' ' :: 'f' :: 'o' :: 'r' :: ' ' ::
          (N ++ (' ' :: 'n' :: 'i' :: 'g' :: 'h' :: 't' :: 's' :: [])))) :=
      filter_comma_eq_self _ (no_comma_priceString X N hX hN)
    have hm : findPriceMatch ((String.mk ('$' :: (X ++ (' ' :: 'f' :: 'o' :: 'r' :: ' ' ::
        (N ++ (' ' :: 'n' :: 'i' :: 'g' :: 'h' :: 't' :: 's' :: [])))))).data.filter
        (fun c => c ≠ ',')) = some (X, []) := by
      rw [hfil]
      exact findPriceMatch_dollar X hXne hX _ (Or.inr ⟨_, rfl⟩)
    have hn : findNights ((String.mk ('$' :: (X ++ (' ' :: 'f' :: 'o' :: 'r' :: ' ' ::
        (N ++ (' ' :: 'n' :: 'i' :: 'g' :: 'h' :: 't' :: 's' :: [])))))).data.filter
        (fun c => c ≠ ',')) = some (natOfDigits N) := by
      rw [hfil]
      exact findNights_priceString X N hX hNne hN ('s' :: [])
    have h := (parsePrice_chars _ X [] hraw hm).2 (natOfDigits N) hn
    rw [h, if_pos h0, ratOfParts_nil]
  · intro X hXne hX
    have hraw : ¬ (String.mk ('$' :: X) = "") := by
      intro h
      cases (congrArg String.data h)
    have hfil : (String.mk ('$' :: X)).data.filter (fun c => c ≠ ',') = '$' :: X :=
      filter_comma_eq_self _ (no_comma_bare X hX)
    have hm : findPriceMatch ((String.mk ('$' :: X)).data.filter (fun c => c ≠ ',')) =
        some (X, []) := by
      rw [hfil, show ('$' :: X) = ('$' :: (X ++ [])) from by rw [List.append_nil]]
      exact findPriceMatch_dollar X hXne hX [] (Or.inl rfl)
    have hn : findNights ((String.mk ('$' :: X)).data.filter (fun c => c ≠ ',')) = none := by
      rw [hfil]
      exact findNights_bare X hX
    have h := (parsePrice_chars _ X [] hraw hm).1 hn
    rw [h, ratOfParts_nil]
  · intro raw hm
    exact parsePrice_none raw (Or.inr hm)

/-- Witness for C3's general clauses: `$8 for 4 nights ↦ 2`, `$9 ↦ 9`,
and unmatchable text maps to 0. -/
theorem parsePrice_witness :
    parsePrice (String.mk ('$' :: (['8'] ++ (' ' :: 'f' :: 'o' :: 'r' :: ' ' ::
        (['4'] ++ (' ' :: 'n' :: 'i' :: 'g' :: 'h' :: 't' :: 's' :: [])))))) = 2 ∧
    parsePrice (String.mk ('$' :: ['9'])) = 9 ∧
    parsePrice "no price here" = 0 := by
  refine ⟨?_, ?_, ?_⟩
  · have h := parsePrice_spec.2.2.2.2.1 ['8'] ['4'] (by decide) (by decide) (by decide)
      (by decide) (by decide)
    rw [h, show natOfDigits ['8'] = 8 from rfl, show natOfDigits ['4'] = 4 from rfl]
    norm_num
  · have h := parsePrice_spec.2.2.2.2.2.1 ['9'] (by decide) (by decide)
    rw [h, show natOfDigits ['9'] = 9 from rfl]
    norm_num
  · exact parsePrice_spec.2.2.2.2.2.2 "no price here" (by decide)

/-- C4: `parseRating` returns the value of the first (leftmost) match of
the rating regexp when that value is at most 5, and 0 otherwise: a parsed
value above 5 is discarded to 0 — never clamped — and non-matching or
empty text yields 0, so the result always lies in `[0, 5]`. In particular
`4.82 out of 5 average rating ↦ 4.82`, `6.00 ↦ 0`, `"" ↦ 0`. -/
theorem parseRating_spec :
    parseRating "4.82 out of 5 average rating" = 482 / 100 ∧
    parseRating "6.00" = 0 ∧
    parseRating "" = 0 ∧
    (∀ raw : String, 0 ≤ parseRating raw ∧ parseRating raw ≤ 5) ∧
    (∀ (raw : String) (d : Char) (fp : List Char), findRating raw.data = some (d, fp) →
      5 < ratOfParts [d] fp → parseRating raw = 0) ∧
    (∀ (raw : String) (d : Char) (fp : List Char), findRating raw.data = some (d, fp) →
      ratOfParts [d] fp ≤ 5 → parseRating raw = ratOfParts [d] fp) ∧
    (∀ raw : String, findRating raw.data = none → parseRating raw = 0) := by
  refine ⟨?_, ?_, ?_, ?_, ?_, ?_, ?_⟩
  · have h := (parseRating_chars "4.82 out of 5 average rating").2 '4' ['8', '2'] (by decide)
    rw [h, if_neg (by
      rw [ratOfParts, show natOfDigits ['4'] = 4 from rfl,
        show natOfDigits ['8', '2'] = 82 from rfl]
      norm_num)]
    rw [ratOfParts, show natOfDigits ['4'] = 4 from rfl,
      show natOfDigits ['8', '2'] = 82 from rfl]
    norm_num
  · have h := (parseRating_chars "6.00").2 '6' ['0', '0'] (by decide)
    rw [h, if_pos (by
      rw [ratOfParts, show natOfDigits ['6'] = 6 from rfl,
        show natOfDigits ['0', '0'] = 0 from rfl]
      norm_num)]
  · exact (parseRating_chars "").1 (by decide)
  · intro raw
    rcases hfr : findRating raw.data with _ | ⟨d, fp⟩
    · rw [(parseRating_chars raw).1 hfr]
      norm_num
    · rw [(parseRating_chars raw).2 d fp hfr]
      by_cases h5 : 5 < ratOfParts [d] fp
      · rw [if_pos h5]
        norm_num
      · rw [if_neg h5]
        exact ⟨ratOfParts_nonneg _ _, not_lt.mp h5⟩
  · intro raw d fp hm h5
    rw [(parseRating_chars raw).2 d fp hm, if_pos h5]
  · intro raw d fp hm h5
    rw [(parseRating_chars raw).2 d fp hm, if_neg (not_lt.mpr h5)]
  · intro raw hm
    exact (parseRating_chars raw).1 hm

/-- Witness for C4's general clauses: `9.99` is out of bound and
discarded, `3.5` is in bound and kept, unmatchable text maps to 0. -/
theorem parseRating_witness :
    parseRating "9.99" = 0 ∧
    parseRating "3.5" = 35 / 10 ∧
    parseRating "no rating" = 0 := by
  refine ⟨?_, ?_, ?_⟩
  · apply parseRating_spec.2.2.2.2.1 "9.99" '9' ['9', '9'] (by decide)
    rw [ratOfParts, show natOfDigits ['9'] = 9 from rfl,
      show natOfDigits ['9', '9'] = 99 from rfl]
    norm_num
  · have h := parseRating_spec.2.2.2.2.2.1 "3.5" '3' ['5'] (by decide) (by
      rw [ratOfParts, show natOfDigits ['3'] = 3 from rfl,
        show natOfDigits ['5'] = 5 from rfl]
      norm_num)
    rw [h, ratOfParts, show natOfDigits ['3'] = 3 from rfl,
      show natOfDigits ['5'] = 5 from rfl]
    norm_num
  · exact parseRating_spec.2.2.2.2.2.2 "no rating" (by decide)
